import Mathlib

set_option maxRecDepth 4000

/-!
Shallow embedding of the todo application's order-management core.

Sources embedded here:
* the REST Lambda (`listTodos`, `createTodo`, `updateTodo`, `deleteTodo`,
  `reorderTodos`, `handler`) — namespace `TodoApi`;
* the AppSync reorder resolver backed by a DynamoDB transaction
  (`backend/reorder.mjs`) — namespace `ReorderResolver`;
* the REST client hook (`useTodos` with `persistOrder`) — namespace `RestHook`;
* the GraphQL client hook's `addTodo` text validation — namespace `GqlHook`.

The DynamoDB table is modeled as a `List TodoItem`; the table's key schema
(`userId` partition key, `todoId` sort key) makes `(userId, todoId)` pairs
unique, which appears below as a `Nodup` hypothesis where needed.  A `Query`
on the partition key is modeled as a filter on `userId`.  JavaScript's
`Array.prototype.sort` is stable and, for the consistent comparator
`(a.order ?? Infinity) - (b.order ?? Infinity)` (NaN comparator results are
treated as 0 by the ECMAScript SortCompare), its output is the unique stable
sort, which `List.insertionSort` computes.  Strings are compared after
trimming; `String.trim`/`String.length` agree with the JavaScript
counterparts on the ASCII inputs used in the witnesses.
-/

/-- JavaScript's `String.prototype.trim`: strip leading and trailing
whitespace.  (Stated over the character list because the library's
`String.trim` is not kernel-reducible; on the inputs appearing here the two
agree.) -/
def jsTrim (s : String) : String :=
  String.mk ((s.toList.dropWhile Char.isWhitespace).reverse.dropWhile Char.isWhitespace).reverse

/-- A stored todo record, one DynamoDB item.  `order` is optional because
items written before the reorder feature have no `order` attribute. -/
structure TodoItem where
  userId : String
  todoId : String
  text : String
  completed : Bool
  order : Option Int
  createdAt : String
deriving DecidableEq, Repr

/-- Comparator key order of `items.sort((a, b) => (a.order ?? Infinity) - (b.order ?? Infinity))`:
a missing `order` compares as positive infinity. -/
def orderLe : Option Int → Option Int → Bool
  | none, none => true
  | none, some _ => false
  | some _, none => true
  | some x, some y => decide (x ≤ y)

/-- The sort relation on items induced by the JS comparator. -/
def byOrder (a b : TodoItem) : Prop := orderLe a.order b.order = true

instance : DecidableRel byOrder := fun a b => instDecidableEqBool (orderLe a.order b.order) true

instance : IsTotal TodoItem byOrder :=
  ⟨by
    intro a b
    unfold byOrder orderLe
    rcases a.order with _ | x <;> rcases b.order with _ | y <;> simp <;> omega⟩

instance : IsTrans TodoItem byOrder :=
  ⟨by
    intro a b c
    unfold byOrder orderLe
    rcases a.order with _ | x <;> rcases b.order with _ | y <;> rcases c.order with _ | z <;>
      simp <;> omega⟩

/-- The key relation on `Option Int` itself, used to compare order values. -/
def keyLe (a b : Option Int) : Prop := orderLe a b = true

instance : IsAntisymm (Option Int) keyLe :=
  ⟨by
    intro a b
    unfold keyLe orderLe
    rcases a with _ | x <;> rcases b with _ | y <;> simp
    omega⟩

/-- One write of `SET #order = :order` for key `(userId, todoId)` (an
`UpdateCommand` with no condition expression; every call site has already
checked that the item exists, so the DynamoDB upsert case is unreachable
and the write is modeled as an in-place update). -/
def setOrder (store : List TodoItem) (userId todoId : String) (ord : Int) : List TodoItem :=
  store.map fun t =>
    if t.userId == userId && t.todoId == todoId then { t with order := some ord } else t

/-- The write phase of a reorder: one `SET #order = :order` per id, the id at
position `i` receiving order `start + i`.  The Lambda issues these writes
through `Promise.all` and the resolver as one transaction; the writes touch
pairwise distinct keys, so their sequential composition below is their only
observable outcome. -/
def writeOrders (store : List TodoItem) (userId : String) :
    List String → Int → List TodoItem
  | [], _ => store
  | id :: rest, start => writeOrders (setOrder store userId id start) userId rest (start + 1)

/-- The effect of `writeOrders` on a single item (used to reason pointwise). -/
def applyOrders (userId : String) : List String → Int → TodoItem → TodoItem
  | [], _, t => t
  | id :: rest, start, t =>
    applyOrders userId rest (start + 1)
      (if t.userId == userId && t.todoId == id then { t with order := some start } else t)

/-- A store call, recorded with the owner identity it was issued for. -/
inductive StoreOp where
  | query (userId : String)
  | put (item : TodoItem)
  | updItem (userId todoId : String) (text : String) (completed : Bool)
  | updOrder (userId todoId : String) (ord : Int)
  | del (userId todoId : String)
deriving DecidableEq, Repr

/-- The owner identity a store call is scoped to. -/
def StoreOp.owner : StoreOp → String
  | .query u => u
  | .put item => item.userId
  | .updItem u _ _ _ => u
  | .updOrder u _ _ => u
  | .del u _ => u

/-- The list of order-update calls issued by a reorder's write phase. -/
def writeOps (userId : String) : List String → Int → List StoreOp
  | [], _ => []
  | id :: rest, start => .updOrder userId id start :: writeOps userId rest (start + 1)

/-- Outcome of a store-backed operation: a result or a thrown error,
the resulting table state, and the store calls issued. -/
structure DbOut (α : Type) where
  res : Except String α
  store : List TodoItem
  ops : List StoreOp

namespace TodoApi

/-- GET /todos — query the owner's partition and sort by the `order`
attribute, items without `order` going to the end (stable). -/
def listTodos (store : List TodoItem) (userId : String) : List TodoItem :=
  List.insertionSort byOrder (store.filter fun t => t.userId == userId)

/-- Input of POST /todos: the client-supplied id, text and completed flag. -/
structure CreateInput where
  id : String
  text : String
  completed : Bool
deriving DecidableEq, Repr

/-- A `PutCommand` on key `(item.userId, item.todoId)`: replaces the existing
item with that key, or appends a new item. -/
def putItem (store : List TodoItem) (item : TodoItem) : List TodoItem :=
  if store.any (fun t => t.userId == item.userId && t.todoId == item.todoId) then
    store.map fun t =>
      if t.userId == item.userId && t.todoId == item.todoId then item else t
  else
    store ++ [item]

/-- POST /todos — reads the owner's todos to compute
`maxOrder = reduce(Math.max, t.order ?? 0, 0)`, then puts the new item with
`order = maxOrder + 1` and `createdAt = now`. -/
def createTodo (store : List TodoItem) (userId : String) (todo : CreateInput)
    (now : String) : DbOut TodoItem :=
  let existing := listTodos store userId
  let maxOrder := existing.foldl (fun m t => max m (t.order.getD 0)) 0
  let item : TodoItem :=
    { userId := userId, todoId := todo.id, text := todo.text,
      completed := todo.completed, order := some (maxOrder + 1), createdAt := now }
  ⟨.ok item, putItem store item, [.query userId, .put item]⟩

/-- PUT /todos/:id — `UpdateCommand` with
`SET #text = :text, completed = :completed` guarded by
`ConditionExpression: attribute_exists(todoId)`; a missing key raises
`ConditionalCheckFailedException` and writes nothing.  (The `ALL_NEW`
return value is not modeled; only the state and status matter here.) -/
def updateTodo (store : List TodoItem) (userId todoId : String)
    (text : String) (completed : Bool) : DbOut Unit :=
  if store.any (fun t => t.userId == userId && t.todoId == todoId) then
    ⟨.ok (),
      store.map fun t =>
        if t.userId == userId && t.todoId == todoId then
          { t with text := text, completed := completed }
        else t,
      [.updItem userId todoId text completed]⟩
  else
    ⟨.error "ConditionalCheckFailedException", store, [.updItem userId todoId text completed]⟩

/-- DELETE /todos/:id — an unconditional `DeleteCommand` on the key. -/
def deleteTodo (store : List TodoItem) (userId todoId : String) : DbOut Unit :=
  ⟨.ok (), store.filter (fun t => !(t.userId == userId && t.todoId == todoId)),
    [.del userId todoId]⟩

/-- PATCH /todos/reorder — rejects an empty or over-1000-element id array,
reads the owner's todos, rejects the request if any id is not among them,
and otherwise writes `order = index` for every id. -/
def reorderTodos (store : List TodoItem) (userId : String)
    (todoIds : List String) : DbOut Unit :=
  if todoIds.length = 0 ∨ 1000 < todoIds.length then
    ⟨.error "Invalid todoIds array", store, []⟩
  else
    let existingIds := (listTodos store userId).map TodoItem.todoId
    if todoIds.all (fun id => existingIds.contains id) then
      ⟨.ok (), writeOrders store userId todoIds 0, .query userId :: writeOps userId todoIds 0⟩
    else
      ⟨.error "Invalid todoId in array", store, [.query userId]⟩

/-- The parsed JSON request body.  The code reads only `id`, `text`,
`completed` and `todoIds`; `userId` stands for a caller-supplied owner
field, present in the model to show that the handler never consults it. -/
structure ReqBody where
  id : Option String
  text : Option String
  completed : Option Bool
  todoIds : Option (List String)
  userId : Option String
deriving DecidableEq, Repr

/-- The parts of the API Gateway event the handler reads. -/
structure Event where
  method : String
  rawPath : String
  authHeader : Option String
  body : Option ReqBody
deriving DecidableEq, Repr

/-- Bearer-token authentication: the `Authorization` header must start with
`"Bearer "`; the rest is passed to the verifier (`verifyToken`, modeled as
an opaque function), which yields the token's `sub` or fails. -/
def authenticateRequest (verify : String → Option String) (e : Event) : Option String :=
  match e.authHeader with
  | none => none
  | some h => if List.isPrefixOf "Bearer ".toList h.toList then verify (h.drop 7) else none

/-- The `path.match(/\/todos\/([^/]+)$/)?.[1]` extraction: the final path
segment when the path ends in `/todos/<segment>` with a nonempty,
slash-free segment. -/
def extractTodoId (path : String) : Option String :=
  match ((path.toList.splitOn '/').map (fun cs => String.mk cs)).reverse with
  | seg :: "todos" :: _ :: _ => if seg = "" then none else some seg
  | _ => none

/-- The handler's observable outcome: HTTP status, table state, store calls. -/
structure HResult where
  status : Nat
  store : List TodoItem
  ops : List StoreOp
deriving Repr

/-- The Lambda handler: CORS preflight short-circuit, authentication,
then dispatch on method and path.  A missing body where the code calls
`JSON.parse(event.body)` (or an undefined attribute value reaching the
DynamoDB marshaller) throws, which the catch-all turns into a 500;
`ConditionalCheckFailedException` becomes 404; other errors 500. -/
def handler (verify : String → Option String) (e : Event)
    (store : List TodoItem) (now : String) : HResult :=
  if e.method = "OPTIONS" then ⟨200, store, []⟩
  else
    match authenticateRequest verify e with
    | none => ⟨401, store, []⟩
    | some userId =>
      let todoId? := extractTodoId e.rawPath
      if e.method = "PATCH" ∧ e.rawPath = "/todos/reorder" then
        match e.body with
        | none => ⟨500, store, []⟩
        | some b =>
          match b.todoIds with
          | none => ⟨500, store, []⟩
          | some ids =>
            let r := reorderTodos store userId ids
            match r.res with
            | .ok _ => ⟨200, r.store, r.ops⟩
            | .error _ => ⟨500, r.store, r.ops⟩
      else if e.method = "GET" then
        ⟨200, store, [.query userId]⟩
      else if e.method = "POST" then
        match e.body with
        | none => ⟨500, store, []⟩
        | some b =>
          match b.id, b.text, b.completed with
          | some id, some tx, some c =>
            let r := createTodo store userId ⟨id, tx, c⟩ now
            ⟨201, r.store, r.ops⟩
          | _, _, _ => ⟨500, store, []⟩
      else if e.method = "PUT" then
        match todoId? with
        | none => ⟨400, store, []⟩
        | some tid =>
          match e.body with
          | none => ⟨500, store, []⟩
          | some b =>
            match b.text, b.completed with
            | some tx, some c =>
              let r := updateTodo store userId tid tx c
              match r.res with
              | .ok _ => ⟨200, r.store, r.ops⟩
              | .error msg =>
                if msg = "ConditionalCheckFailedException" then ⟨404, r.store, r.ops⟩
                else ⟨500, r.store, r.ops⟩
            | _, _ => ⟨500, store, []⟩
      else if e.method = "DELETE" then
        match todoId? with
        | none => ⟨400, store, []⟩
        | some tid =>
          let r := deleteTodo store userId tid
          ⟨204, r.store, r.ops⟩
      else ⟨405, store, []⟩

end TodoApi

namespace ReorderResolver

/-- One entry of the resolver's return value. -/
structure RTodo where
  id : String
  text : String
  completed : Bool
  order : Int
  createdAt : String
deriving DecidableEq, Repr

/-- The partition query `getTodosByUser`. -/
def getTodosByUser (store : List TodoItem) (userId : String) : List TodoItem :=
  store.filter fun t => t.userId == userId

/-- The resolver's result list: each id mapped to its stored item with the
new order.  `todosMap.get(id)` cannot miss after validation, so the `none`
branch is unreachable at every call site. -/
def resultTodos (todos : List TodoItem) : List String → Int → List (Option RTodo)
  | [], _ => []
  | id :: rest, i =>
    ((todos.find? fun t => t.todoId == id).map fun t =>
      ⟨t.todoId, t.text, t.completed, i, t.createdAt⟩) :: resultTodos todos rest (i + 1)

/-- The AppSync `reorderTodos` resolver: rejects an empty array or more than
100 ids, rejects the first id with no matching todo for the caller, and
otherwise applies every `SET #order = :order` in a single
`TransactWriteCommand` (the DynamoDB transaction commits all the updates or
none; the model applies them as one step).  Returns the thrown error or the
result list, together with the resulting table state. -/
def handler (store : List TodoItem) (userId : String) (todoIds : List String) :
    Except String (List (Option RTodo)) × List TodoItem :=
  if todoIds.length = 0 then (.error "todoIds must be a non-empty array", store)
  else if 100 < todoIds.length then (.error "Cannot reorder more than 100 todos at once", store)
  else
    let todos := getTodosByUser store userId
    let validIds := todos.map TodoItem.todoId
    match todoIds.find? (fun id => !(validIds.contains id)) with
    | some id => (.error ("Todo " ++ id ++ " not found"), store)
    | none => (.ok (resultTodos todos todoIds 0), writeOrders store userId todoIds 0)

end ReorderResolver

/-- A todo as the client hooks hold it in React state. -/
structure ClientTodo where
  id : String
  text : String
  completed : Bool
deriving DecidableEq, Repr

namespace RestHook

/-!
The REST `useTodos` hook, each mutating operation modeled as a function from
the current local list to the list visible after the operation settles,
with `fails : Bool` saying whether the durable write failed.  The
asynchronous `fetch` and `setTodos` dance collapses to this because each
function's optimistic update and rollback read only the state they
installed.
-/

/-- `addTodo`: ignore blank text, optimistically append the trimmed todo
under a fresh `crypto.randomUUID()` temp id; on failure filter the temp id
back out; on success replace the temp id with the server-assigned one. -/
def addTodo (todos : List ClientTodo) (text : String) (tempId : String)
    (fails : Bool) (serverId : String) : List ClientTodo :=
  if jsTrim text = "" then todos
  else
    let newTodo : ClientTodo := ⟨tempId, jsTrim text, false⟩
    let optimistic := todos ++ [newTodo]
    if fails then optimistic.filter (fun t => !(t.id == tempId))
    else optimistic.map fun t => if t.id == tempId then { t with id := serverId } else t

/-- `toggleTodo`: flip `completed` optimistically; on failure map the
captured `todo.completed` back over every item with the id. -/
def toggleTodo (todos : List ClientTodo) (id : String) (fails : Bool) : List ClientTodo :=
  match todos.find? (fun t => t.id == id) with
  | none => todos
  | some todo =>
    let optimistic := todos.map fun t =>
      if t.id == id then { t with completed := !t.completed } else t
    if fails then
      optimistic.map fun t => if t.id == id then { t with completed := todo.completed } else t
    else optimistic

/-- `editTodo`: ignore a missing id or blank replacement text; set the
trimmed text optimistically; on failure map the captured `todo.text` back. -/
def editTodo (todos : List ClientTodo) (id newText : String) (fails : Bool) : List ClientTodo :=
  match todos.find? (fun t => t.id == id) with
  | none => todos
  | some todo =>
    if jsTrim newText = "" then todos
    else
      let optimistic := todos.map fun t =>
        if t.id == id then { t with text := jsTrim newText } else t
      if fails then
        optimistic.map fun t => if t.id == id then { t with text := todo.text } else t
      else optimistic

/-- `deleteTodo`: capture the todo, optimistically filter it out; on failure
push the captured todo back with `[...prev, todo]` — at the END of the
list, not at its original position. -/
def deleteTodo (todos : List ClientTodo) (id : String) (fails : Bool) : List ClientTodo :=
  let todo := todos.find? (fun t => t.id == id)
  let optimistic := todos.filter (fun t => !(t.id == id))
  if fails then
    match todo with
    | some t => optimistic ++ [t]
    | none => optimistic
  else optimistic

/-- The two-splice move
`const [removed] = newTodos.splice(oldIndex, 1); newTodos.splice(newIndex, 0, removed)`.
Call sites always pass an in-range `oldIndex`; an insertion index past the
end is clamped to the end, as `splice` clamps its start argument. -/
def spliceMove (todos : List ClientTodo) (oldIndex newIndex : Nat) : List ClientTodo :=
  match todos[oldIndex]? with
  | none => todos
  | some removed =>
    let rest := todos.eraseIdx oldIndex
    rest.insertIdx (min newIndex rest.length) removed

/-- `reorderTodos`/`moveTodoUp`/`moveTodoDown` apply the splice to local
state and call `persistOrder`, whose `catch` only logs: a failed
`PATCH /todos/reorder` leaves the optimistic reordering in place. -/
def reorderTodos (todos : List ClientTodo) (oldIndex newIndex : Nat)
    (fails : Bool) : List ClientTodo :=
  spliceMove todos oldIndex newIndex

end RestHook

namespace GqlHook

/-- What the GraphQL hook's `addTodo` does with its text argument before any
request is issued. -/
inductive AddResult where
  | ignored
  | rejected (msg : String)
  | accepted (text : String)
deriving DecidableEq, Repr

/-- The hook's text limit. -/
def MAX_TODO_LENGTH : Nat := 500

/-- The validation prefix of the GraphQL `addTodo`: blank text returns
without any effect, text longer than `MAX_TODO_LENGTH` after trimming
throws, and otherwise the trimmed text is sent in the create mutation. -/
def addTodoCheck (text : String) : AddResult :=
  let trimmed := jsTrim text
  if trimmed = "" then .ignored
  else if MAX_TODO_LENGTH < trimmed.length then
    .rejected "Todo text cannot exceed 500 characters"
  else .accepted trimmed

end GqlHook

/-! ## Helper lemmas -/

/-- `applyOrders` touches only the `order` field. -/
theorem applyOrders_fields (u : String) (ids : List String) (start : Int) (t : TodoItem) :
    (applyOrders u ids start t).userId = t.userId
    ∧ (applyOrders u ids start t).todoId = t.todoId
    ∧ (applyOrders u ids start t).text = t.text
    ∧ (applyOrders u ids start t).completed = t.completed
    ∧ (applyOrders u ids start t).createdAt = t.createdAt := by
  induction ids generalizing start t with
  | nil => simp [applyOrders]
  | cons id rest ih =>
    simp only [applyOrders]
    rcases ih (start + 1) (if t.userId == u && t.todoId == id then
        { t with order := some start } else t) with ⟨h1, h2, h3, h4, h5⟩
    rw [h1, h2, h3, h4, h5]
    split <;> simp

/-- Items whose key is not targeted by any of the order writes are not
changed at all. -/
theorem applyOrders_skip (u : String) (ids : List String) (start : Int) (t : TodoItem)
    (h : t.userId ≠ u ∨ t.todoId ∉ ids) : applyOrders u ids start t = t := by
  induction ids generalizing start with
  | nil => rfl
  | cons id rest ih =>
    have hcond : (t.userId == u && t.todoId == id) = false := by
      rcases h with h | h
      · simp [beq_eq_false_iff_ne, h]
      · simp only [List.mem_cons, not_or] at h
        simp [beq_eq_false_iff_ne, h.1]
    simp only [applyOrders, hcond, Bool.false_eq_true, if_false]
    exact ih _ (by rcases h with h | h
                   · exact Or.inl h
                   · exact Or.inr (by simp only [List.mem_cons, not_or] at h; exact h.2))

/-- For an owner's item whose id sits at position `k` of a duplicate-free id
sequence, the order writes leave the item with order `start + k`. -/
theorem applyOrders_assign (u : String) (ids : List String) (start : Int) (t : TodoItem)
    (hnd : ids.Nodup) (hu : t.userId = u) (k : Nat) (hk : ids[k]? = some t.todoId) :
    (applyOrders u ids start t).order = some (start + k) := by
  induction ids generalizing start t k with
  | nil => simp at hk
  | cons id rest ih =>
    rcases k with _ | k
    · simp only [List.getElem?_cons_zero, Option.some.injEq] at hk
      have hcond : (t.userId == u && t.todoId == id) = true := by
        simp [hu, hk.symm]
      simp only [applyOrders, hcond, if_true]
      have hnotin : t.todoId ∉ rest := by
        rw [← hk]; exact (List.nodup_cons.mp hnd).1
      rw [applyOrders_skip u rest (start + 1) _ (Or.inr (by simpa using hnotin))]
      simp
    · simp only [List.getElem?_cons_succ] at hk
      have hmem : t.todoId ∈ rest := List.getElem?_mem hk
      have hne : t.todoId ≠ id := by
        intro hEq
        exact (List.nodup_cons.mp hnd).1 (hEq ▸ hmem)
      have hcond : (t.userId == u && t.todoId == id) = false := by
        simp [beq_eq_false_iff_ne, hne]
      simp only [applyOrders, hcond, Bool.false_eq_true, if_false]
      have := ih (start + 1) t (List.nodup_cons.mp hnd).2 hu k hk
      rw [this]
      congr 1
      push_cast
      ring

/-- The sequential order writes act pointwise on the table. -/
theorem writeOrders_eq_map (u : String) (ids : List String) (start : Int)
    (store : List TodoItem) :
    writeOrders store u ids start = store.map (applyOrders u ids start) := by
  induction ids generalizing store start with
  | nil => simp [writeOrders, applyOrders]
  | cons id rest ih =>
    simp only [writeOrders, setOrder, ih, List.map_map]
    rfl

/-- Every order-write op of a reorder is scoped to the requesting owner. -/
theorem writeOps_owner (u : String) (ids : List String) (start : Int) :
    ∀ op ∈ writeOps u ids start, op.owner = u := by
  induction ids generalizing start with
  | nil => simp [writeOps]
  | cons id rest ih =>
    intro op hop
    simp only [writeOps, List.mem_cons] at hop
    rcases hop with rfl | hop
    · rfl
    · exact ih _ op hop

/-! ## C2, C8, C10 -/

/-- C2: a reorder request whose id sequence is empty, longer than 1000, or
contains an id that is not one of the caller's items fails with the
corresponding invalid-input error, the table is unchanged, and no write is
issued (at most the validation read). -/
theorem reorderTodos_rejects_invalid (store : List TodoItem) (u : String) (ids : List String)
    (h : ids = [] ∨ 1000 < ids.length
      ∨ ∃ id ∈ ids, ∀ t ∈ store, ¬(t.userId = u ∧ t.todoId = id)) :
    (∃ msg, (TodoApi.reorderTodos store u ids).res = .error msg)
    ∧ (TodoApi.reorderTodos store u ids).store = store
    ∧ ∀ op ∈ (TodoApi.reorderTodos store u ids).ops, op = .query u := by
  unfold TodoApi.reorderTodos
  by_cases hlen : ids.length = 0 ∨ 1000 < ids.length
  · rw [if_pos hlen]
    exact ⟨⟨_, rfl⟩, rfl, by simp⟩
  · rw [if_neg hlen]
    push_neg at hlen
    have hbad : ∃ id ∈ ids, ∀ t ∈ store, ¬(t.userId = u ∧ t.todoId = id) := by
      rcases h with h | h | h
      · exact absurd (by simp [h]) hlen.1
      · exact absurd h (by omega)
      · exact h
    rcases hbad with ⟨id, hid, hnot⟩
    dsimp only
    split
    · rename_i hcond
      exfalso
      rw [List.all_eq_true] at hcond
      have := hcond id hid
      rw [List.elem_iff, List.mem_map] at this
      rcases this with ⟨t, ht, hteq⟩
      rw [TodoApi.listTodos, List.mem_insertionSort, List.mem_filter] at ht
      exact hnot t ht.1 ⟨by simpa using ht.2, hteq⟩
    · exact ⟨⟨_, rfl⟩, rfl, by simp⟩

/-- C8: deleting the same id twice in a row returns 204 both times and the
second delete leaves the table exactly as the first left it. -/
theorem handler_delete_idempotent (verify : String → Option String) (e : TodoApi.Event)
    (store : List TodoItem) (now : String) (u tid : String)
    (hm : e.method = "DELETE") (hauth : TodoApi.authenticateRequest verify e = some u)
    (hpath : TodoApi.extractTodoId e.rawPath = some tid) :
    (TodoApi.handler verify e store now).status = 204
    ∧ (TodoApi.handler verify e (TodoApi.handler verify e store now).store now).status = 204
    ∧ (TodoApi.handler verify e (TodoApi.handler verify e store now).store now).store
        = (TodoApi.handler verify e store now).store := by
  have hfilter : ∀ s : List TodoItem,
      (TodoApi.handler verify e s now).status = 204
      ∧ (TodoApi.handler verify e s now).store
          = s.filter (fun t => !(t.userId == u && t.todoId == tid)) := by
    intro s
    unfold TodoApi.handler
    rw [hm, hauth, hpath]
    simp [TodoApi.deleteTodo]
  refine ⟨(hfilter store).1, (hfilter _).1, ?_⟩
  rw [(hfilter _).2, (hfilter store).2, List.filter_filter]
  simp

/-- C10: in the List result, an item without an `order` attribute is never
followed by one with an `order` attribute, and the items with `order`
appear in ascending order. -/
theorem listTodos_missing_order_last (store : List TodoItem) (u : String) (i j : Nat)
    (hi : i < (TodoApi.listTodos store u).length)
    (hj : j < (TodoApi.listTodos store u).length) (hij : i < j) :
    (((TodoApi.listTodos store u)[i]).order = none →
      ((TodoApi.listTodos store u)[j]).order = none)
    ∧ ∀ x y : Int, ((TodoApi.listTodos store u)[i]).order = some x →
        ((TodoApi.listTodos store u)[j]).order = some y → x ≤ y := by
  have hs : List.Sorted byOrder (TodoApi.listTodos store u) :=
    List.sorted_insertionSort byOrder _
  rw [List.Sorted, List.pairwise_iff_getElem] at hs
  have h := hs i j hi hj hij
  unfold byOrder orderLe at h
  constructor
  · intro hnone
    rw [hnone] at h
    rcases hcase : ((TodoApi.listTodos store u)[j]).order with _ | y
    · rfl
    · rw [hcase] at h; simp at h
  · intro x y hx hy
    rw [hx, hy] at h
    simpa using h

/-- Witness for `reorderTodos_rejects_invalid`: an id the caller does not
own (the store is empty) is rejected with the table untouched. -/
theorem reorderTodos_rejects_invalid_witness :
    (∃ msg, (TodoApi.reorderTodos [] "u" ["a"]).res = .error msg)
    ∧ (TodoApi.reorderTodos [] "u" ["a"]).store = []
    ∧ ∀ op ∈ (TodoApi.reorderTodos [] "u" ["a"]).ops, op = .query "u" :=
  reorderTodos_rejects_invalid [] "u" ["a"]
    (Or.inr (Or.inr ⟨"a", by decide, by simp⟩))

/-- Witness for `handler_delete_idempotent` on a concrete DELETE request. -/
theorem handler_delete_idempotent_witness :
    (TodoApi.handler (fun _ => some "u")
        ⟨"DELETE", "/todos/a", some "Bearer tok", none⟩
        [⟨"u", "a", "A", false, some 1, "T"⟩] "T").status = 204
    ∧ (TodoApi.handler (fun _ => some "u")
        ⟨"DELETE", "/todos/a", some "Bearer tok", none⟩
        (TodoApi.handler (fun _ => some "u")
          ⟨"DELETE", "/todos/a", some "Bearer tok", none⟩
          [⟨"u", "a", "A", false, some 1, "T"⟩] "T").store "T").status = 204
    ∧ (TodoApi.handler (fun _ => some "u")
        ⟨"DELETE", "/todos/a", some "Bearer tok", none⟩
        (TodoApi.handler (fun _ => some "u")
          ⟨"DELETE", "/todos/a", some "Bearer tok", none⟩
          [⟨"u", "a", "A", false, some 1, "T"⟩] "T").store "T").store
      = (TodoApi.handler (fun _ => some "u")
          ⟨"DELETE", "/todos/a", some "Bearer tok", none⟩
          [⟨"u", "a", "A", false, some 1, "T"⟩] "T").store :=
  handler_delete_idempotent (fun _ => some "u")
    ⟨"DELETE", "/todos/a", some "Bearer tok", none⟩
    [⟨"u", "a", "A", false, some 1, "T"⟩] "T" "u" "a"
    rfl (by decide) (by decide)

/-- Witness for `listTodos_missing_order_last` on a two-item collection. -/
theorem listTodos_missing_order_last_witness :
    ((TodoApi.listTodos
        [⟨"u", "b", "B", false, some 5, "T"⟩, ⟨"u", "a", "A", true, some 2, "T"⟩]
        "u").map TodoItem.order = [some 2, some 5])
    ∧ (2 : Int) ≤ 5 :=
  ⟨by decide,
    (listTodos_missing_order_last
        [⟨"u", "b", "B", false, some 5, "T"⟩, ⟨"u", "a", "A", true, some 2, "T"⟩]
        "u" 0 1 (by decide) (by decide) (by decide)).2 2 5 (by decide) (by decide)⟩

/-! ## C6 -/

/-- C6 counterexample: the server-side Create performs no text validation.
A Create request whose text is 501 characters (already trimmed) is accepted
with status-201 semantics and the item is stored verbatim, where the claim
requires rejection with `Invalid` and no stored item. -/
theorem createTodo_accepts_501_counterexample :
    (jsTrim (String.mk (List.replicate 501 'a'))).length = 501
    ∧ (TodoApi.createTodo [] "u"
        ⟨"i", String.mk (List.replicate 501 'a'), false⟩ "T").res
        = .ok ⟨"u", "i", String.mk (List.replicate 501 'a'), false, some 1, "T"⟩
    ∧ (TodoApi.createTodo [] "u"
        ⟨"i", String.mk (List.replicate 501 'a'), false⟩ "T").store
        = [⟨"u", "i", String.mk (List.replicate 501 'a'), false, some 1, "T"⟩] :=
  ⟨by decide, rfl, rfl⟩

/-- C6 amended: the text boundaries are enforced only by the client hook's
`addTodo`: trimmed text of exactly 500 characters is accepted and sent,
trimmed text longer than 500 characters is rejected with a thrown error and
no request is issued, and text that is empty after trimming is silently
ignored (no request, no error); the server's `createTodo` itself stores any
text unchecked. -/
theorem addTodoCheck_boundaries (text : String) :
    ((jsTrim text).length = 500 → GqlHook.addTodoCheck text = .accepted (jsTrim text))
    ∧ (500 < (jsTrim text).length →
        GqlHook.addTodoCheck text = .rejected "Todo text cannot exceed 500 characters")
    ∧ (jsTrim text = "" → GqlHook.addTodoCheck text = .ignored) := by
  unfold GqlHook.addTodoCheck GqlHook.MAX_TODO_LENGTH
  refine ⟨?_, ?_, ?_⟩
  · intro h500
    have hne : ¬(jsTrim text = "") := by
      intro h
      rw [h] at h500
      simp at h500
    rw [if_neg hne, if_neg (by omega)]
  · intro h
    have hne : ¬(jsTrim text = "") := by
      intro hEq
      rw [hEq] at h
      simp at h
    rw [if_neg hne, if_pos h]
  · intro h
    rw [if_pos h]

/-- Witness for `addTodoCheck_boundaries`: 500 characters pass, an
all-whitespace string is silently ignored. -/
theorem addTodoCheck_boundaries_witness :
    (jsTrim (String.mk (List.replicate 500 'a'))).length = 500
    ∧ GqlHook.addTodoCheck (String.mk (List.replicate 500 'a'))
        = .accepted (jsTrim (String.mk (List.replicate 500 'a')))
    ∧ GqlHook.addTodoCheck "   " = .ignored :=
  ⟨by decide,
    (addTodoCheck_boundaries (String.mk (List.replicate 500 'a'))).1 (by decide),
    (addTodoCheck_boundaries "   ").2.2 (by decide)⟩

/-! ## C9 -/

/-- C9 counterexample: a Create request supplying the id of an existing item
goes through `PutCommand`, which replaces the whole item: the stored
`createdAt` changes from `"T1"` to the new creation time `"T2"` even though
the item existed throughout. -/
theorem createdAt_reset_counterexample :
    (∃ t ∈ ([⟨"u", "a", "old", false, some 1, "T1"⟩] : List TodoItem),
      t.userId = "u" ∧ t.todoId = "a" ∧ t.createdAt = "T1")
    ∧ (TodoApi.createTodo [⟨"u", "a", "old", false, some 1, "T1"⟩] "u"
        ⟨"a", "new", true⟩ "T2").store
        = [⟨"u", "a", "new", true, some 2, "T2"⟩]
    ∧ ("T2" : String) ≠ "T1" :=
  ⟨⟨⟨"u", "a", "old", false, some 1, "T1"⟩, by decide, by decide⟩, rfl, by decide⟩

/-- C9 amended: Update writes only `text` and `completed`, Reorder writes
only `order`, and Delete removes items, so none of them changes any stored
item's `createdAt`; a Create whose id collides with no existing item of the
owner appends a new record, leaving every existing `createdAt` unchanged.
Only a Create that reuses an existing `(owner, id)` key replaces the item
and resets its `createdAt`. -/
theorem createdAt_stable_amended (store : List TodoItem) (u id tx : String) (c : Bool)
    (ids : List String) (inp : TodoApi.CreateInput) (now : String) :
    ((TodoApi.updateTodo store u id tx c).store.map TodoItem.createdAt
      = store.map TodoItem.createdAt)
    ∧ ((TodoApi.reorderTodos store u ids).store.map TodoItem.createdAt
      = store.map TodoItem.createdAt)
    ∧ (∀ t ∈ (TodoApi.deleteTodo store u id).store, t ∈ store)
    ∧ ((∀ t ∈ store, ¬(t.userId = u ∧ t.todoId = inp.id)) →
        (TodoApi.createTodo store u inp now).store.map TodoItem.createdAt
          = store.map TodoItem.createdAt ++ [now]) := by
  refine ⟨?_, ?_, ?_, ?_⟩
  · unfold TodoApi.updateTodo
    split
    · simp only [List.map_map]
      apply List.map_congr_left
      intro t _
      show (if (t.userId == u && t.todoId == id) = true then
          { t with text := tx, completed := c } else t).createdAt = t.createdAt
      split <;> rfl
    · rfl
  · unfold TodoApi.reorderTodos
    dsimp only
    split
    · rfl
    · split
      · rw [writeOrders_eq_map, List.map_map]
        apply List.map_congr_left
        intro t _
        exact (applyOrders_fields u ids 0 t).2.2.2.2
      · rfl
  · intro t ht
    exact List.mem_of_mem_filter ht
  · intro hfresh
    unfold TodoApi.createTodo TodoApi.putItem
    dsimp only
    have hany : (store.any fun t => t.userId == u && t.todoId == inp.id) = false := by
      rw [Bool.eq_false_iff]
      intro hany
      rw [List.any_eq_true] at hany
      rcases hany with ⟨t, ht, hkey⟩
      rw [Bool.and_eq_true, beq_iff_eq, beq_iff_eq] at hkey
      exact hfresh t ht hkey
    rw [hany]
    simp

/-- Witness for `createdAt_stable_amended` on a one-item store and a fresh
created id. -/
theorem createdAt_stable_amended_witness :
    ((TodoApi.updateTodo [⟨"u", "a", "A", false, some 1, "T1"⟩] "u" "a" "B" true).store.map
        TodoItem.createdAt = ["T1"])
    ∧ ((TodoApi.createTodo [⟨"u", "a", "A", false, some 1, "T1"⟩] "u"
        ⟨"b", "B", false⟩ "T2").store.map TodoItem.createdAt = ["T1", "T2"]) := by
  have h := createdAt_stable_amended [⟨"u", "a", "A", false, some 1, "T1"⟩]
    "u" "a" "B" true ["a"] ⟨"b", "B", false⟩ "T2"
  exact ⟨by rw [h.1]; decide, by rw [h.2.2.2 (by decide)]; decide⟩

/-! ## C7 -/

/-- C7: a reorder never touches anything but the `order` attribute of the
items its id sequence names: every stored item keeps its position, key,
`text`, `completed` and `createdAt`, and an item of the owner whose id is
omitted from the sequence (or any other user's item) also keeps its
`order`. -/
theorem reorderTodos_frame (store : List TodoItem) (u : String) (ids : List String)
    (i : Nat) (t : TodoItem) (ht : store[i]? = some t) :
    (TodoApi.reorderTodos store u ids).store.length = store.length
    ∧ ∃ t', (TodoApi.reorderTodos store u ids).store[i]? = some t'
        ∧ t'.userId = t.userId ∧ t'.todoId = t.todoId ∧ t'.text = t.text
        ∧ t'.completed = t.completed ∧ t'.createdAt = t.createdAt
        ∧ ((t.userId = u ∧ t.todoId ∈ ids) ∨ t'.order = t.order) := by
  have hsame : ∀ s : List TodoItem, s = store →
      s.length = store.length
      ∧ ∃ t', s[i]? = some t'
          ∧ t'.userId = t.userId ∧ t'.todoId = t.todoId ∧ t'.text = t.text
          ∧ t'.completed = t.completed ∧ t'.createdAt = t.createdAt
          ∧ ((t.userId = u ∧ t.todoId ∈ ids) ∨ t'.order = t.order) := by
    intro s hs
    subst hs
    exact ⟨rfl, t, ht, rfl, rfl, rfl, rfl, rfl, Or.inr rfl⟩
  unfold TodoApi.reorderTodos
  dsimp only
  split
  · exact hsame store rfl
  · split
    · rw [writeOrders_eq_map]
      refine ⟨by simp, applyOrders u ids 0 t, ?_, ?_⟩
      · rw [List.getElem?_map, ht]
        rfl
      · rcases applyOrders_fields u ids 0 t with ⟨h1, h2, h3, h4, h5⟩
        refine ⟨h1, h2, h3, h4, h5, ?_⟩
        by_cases hmem : t.userId = u ∧ t.todoId ∈ ids
        · exact Or.inl hmem
        · rw [applyOrders_skip u ids 0 t (by tauto)]
          exact Or.inr rfl
    · exact hsame store rfl

/-- Witness for `reorderTodos_frame`: the other user's item at position 1
keeps all its fields, `order` included, across a reorder of user `u`. -/
theorem reorderTodos_frame_witness :
    (TodoApi.reorderTodos
        [⟨"u", "a", "A", false, some 5, "T"⟩, ⟨"v", "b", "B", true, some 9, "T"⟩]
        "u" ["a"]).store.length = 2
    ∧ ∃ t', (TodoApi.reorderTodos
        [⟨"u", "a", "A", false, some 5, "T"⟩, ⟨"v", "b", "B", true, some 9, "T"⟩]
        "u" ["a"]).store[1]? = some t'
        ∧ t'.userId = "v" ∧ t'.todoId = "b" ∧ t'.text = "B"
        ∧ t'.completed = true ∧ t'.createdAt = "T"
        ∧ (("v" : String) = "u" ∧ ("b" : String) ∈ (["a"] : List String)
            ∨ t'.order = some 9) :=
  reorderTodos_frame
    [⟨"u", "a", "A", false, some 5, "T"⟩, ⟨"v", "b", "B", true, some 9, "T"⟩]
    "u" ["a"] 1 ⟨"v", "b", "B", true, some 9, "T"⟩ (by decide)

/-! ## C5 -/

/-- Every store call a reorder issues is scoped to the requesting owner. -/
theorem reorderTodos_ops_owner (store : List TodoItem) (u : String) (ids : List String) :
    ∀ op ∈ (TodoApi.reorderTodos store u ids).ops, op.owner = u := by
  unfold TodoApi.reorderTodos
  dsimp only
  split
  · simp
  · split
    · intro op hop
      simp only [List.mem_cons] at hop
      rcases hop with rfl | hop
      · rfl
      · exact writeOps_owner u ids 0 op hop
    · intro op hop
      simp only [List.mem_cons, List.not_mem_nil, or_false] at hop
      subst hop
      rfl

/-- C5: when bearer-token verification fails the handler answers 401 (for
any non-preflight method) without issuing a single store call and without
changing the table; when it succeeds, every store call of the request is
scoped to the identity extracted from the token — the `userId` field a
caller may place in the body, or anything in the path, is never used as
the owner. -/
theorem handler_auth_owner (verify : String → Option String) (e : TodoApi.Event)
    (store : List TodoItem) (now : String) :
    (TodoApi.authenticateRequest verify e = none →
      (TodoApi.handler verify e store now).ops = []
      ∧ (TodoApi.handler verify e store now).store = store
      ∧ (e.method ≠ "OPTIONS" → (TodoApi.handler verify e store now).status = 401))
    ∧ ∀ u, TodoApi.authenticateRequest verify e = some u →
        ∀ op ∈ (TodoApi.handler verify e store now).ops, op.owner = u := by
  unfold TodoApi.handler
  constructor
  · intro hnone
    by_cases hm : e.method = "OPTIONS"
    · rw [if_pos hm]
      exact ⟨rfl, rfl, fun hne => absurd hm hne⟩
    · rw [if_neg hm, hnone]
      exact ⟨rfl, rfl, fun _ => rfl⟩
  · intro u hu op hop
    by_cases hm : e.method = "OPTIONS"
    · rw [if_pos hm] at hop
      simp at hop
    · rw [if_neg hm, hu] at hop
      dsimp only at hop
      split at hop
      · -- PATCH /todos/reorder
        split at hop
        · simp at hop
        · split at hop
          · simp at hop
          · split at hop
            · exact reorderTodos_ops_owner store u _ op hop
            · exact reorderTodos_ops_owner store u _ op hop
      · split at hop
        · -- GET
          simp only [List.mem_cons, List.not_mem_nil, or_false] at hop
          subst hop
          rfl
        · split at hop
          · -- POST
            split at hop
            · simp at hop
            · split at hop
              · simp only [TodoApi.createTodo, List.mem_cons,
                  List.not_mem_nil, or_false] at hop
                rcases hop with rfl | rfl <;> rfl
              · simp at hop
          · split at hop
            · -- PUT
              split at hop
              · simp at hop
              · split at hop
                · simp at hop
                · split at hop
                  · split at hop
                    · simp only [TodoApi.updateTodo] at hop
                      split at hop <;>
                        (simp only [List.mem_cons, List.not_mem_nil, or_false] at hop;
                         subst hop; rfl)
                    · split at hop <;>
                        (simp only [TodoApi.updateTodo] at hop;
                         split at hop <;>
                           (simp only [List.mem_cons, List.not_mem_nil, or_false] at hop;
                            subst hop; rfl))
                  · simp at hop
            · split at hop
              · -- DELETE
                split at hop
                · simp at hop
                · simp only [TodoApi.deleteTodo, List.mem_cons,
                    List.not_mem_nil, or_false] at hop
                  subst hop
                  rfl
              · -- default 405
                simp at hop

/-- Witness for `handler_auth_owner`: a request with an invalid token is
rejected with 401 and no store call; an authenticated GET issues only a
query for the token's subject. -/
theorem handler_auth_owner_witness :
    ((TodoApi.handler (fun _ => none) ⟨"GET", "/todos", some "Bearer x", none⟩ [] "T").ops = []
      ∧ (TodoApi.handler (fun _ => none) ⟨"GET", "/todos", some "Bearer x", none⟩ [] "T").store
          = []
      ∧ (TodoApi.handler (fun _ => none)
          ⟨"GET", "/todos", some "Bearer x", none⟩ [] "T").status = 401)
    ∧ (StoreOp.query "u").owner = "u" :=
  ⟨⟨((handler_auth_owner (fun _ => none)
        ⟨"GET", "/todos", some "Bearer x", none⟩ [] "T").1 (by decide)).1,
    ((handler_auth_owner (fun _ => none)
        ⟨"GET", "/todos", some "Bearer x", none⟩ [] "T").1 (by decide)).2.1,
    ((handler_auth_owner (fun _ => none)
        ⟨"GET", "/todos", some "Bearer x", none⟩ [] "T").1 (by decide)).2.2 (by decide)⟩,
    (handler_auth_owner (fun _ => some "u")
        ⟨"GET", "/todos", some "Bearer x", none⟩ [] "T").2 "u" (by decide)
      (StoreOp.query "u") (by decide)⟩

/-! ## C3 -/

/-- C3: the store-level reorder is all-or-nothing.  If the resolver throws
(bad length or an unowned id) the table is exactly as before — validation
happens before the transaction, so no assignment is written; if it returns
successfully, every `(id, index)` assignment of the sequence is present in
the table.  No run commits a proper subset of the assignments. -/
theorem transactReorder_all_or_nothing (store : List TodoItem) (u : String)
    (ids : List String) :
    ((∀ rts, (ReorderResolver.handler store u ids).1 ≠ .ok rts) →
        (ReorderResolver.handler store u ids).2 = store)
    ∧ (∀ rts, (ReorderResolver.handler store u ids).1 = .ok rts → ids.Nodup →
        ∀ (k : Nat) (id : String), ids[k]? = some id →
          ∃ t' ∈ (ReorderResolver.handler store u ids).2,
            t'.userId = u ∧ t'.todoId = id ∧ t'.order = some (k : Int)) := by
  unfold ReorderResolver.handler
  dsimp only
  split
  · exact ⟨fun _ => rfl, by intro rts h; simp at h⟩
  · split
    · exact ⟨fun _ => rfl, by intro rts h; simp at h⟩
    · cases hfind : List.find?
          (fun id => !((ReorderResolver.getTodosByUser store u).map
            TodoItem.todoId).contains id) ids with
      | some id0 =>
        simp only [hfind]
        exact ⟨by simp, by intro rts h; simp at h⟩
      | none =>
        simp only [hfind]
        constructor
        · intro hne
          exact absurd rfl (hne _)
        · intro rts _ hnd k id hk
          have hmem : id ∈ ids := List.getElem?_mem hk
          have hvalid : ((ReorderResolver.getTodosByUser store u).map
              TodoItem.todoId).contains id = true := by
            rw [List.find?_eq_none] at hfind
            have := hfind id hmem
            simpa using this
          rw [List.elem_iff, List.mem_map] at hvalid
          rcases hvalid with ⟨t, ht, hteq⟩
          rw [ReorderResolver.getTodosByUser, List.mem_filter] at ht
          have htu : t.userId = u := by simpa using ht.2
          refine ⟨applyOrders u ids 0 t, ?_, ?_, ?_, ?_⟩
          · rw [writeOrders_eq_map]
            exact List.mem_map_of_mem _ ht.1
          · rw [(applyOrders_fields u ids 0 t).1, htu]
          · rw [(applyOrders_fields u ids 0 t).2.1, hteq]
          · rw [applyOrders_assign u ids 0 t hnd htu k (by rw [hteq]; exact hk)]
            simp

/-- Witness for `transactReorder_all_or_nothing`: a successful two-item
reorder, checking the assignment of order 1 to id `"a"`. -/
theorem transactReorder_all_or_nothing_witness :
    ∃ t' ∈ (ReorderResolver.handler
        [⟨"u", "a", "A", false, some 7, "T"⟩, ⟨"u", "b", "B", false, some 8, "T"⟩]
        "u" ["b", "a"]).2,
      t'.userId = "u" ∧ t'.todoId = "a" ∧ t'.order = some ((1 : Nat) : Int) :=
  (transactReorder_all_or_nothing
      [⟨"u", "a", "A", false, some 7, "T"⟩, ⟨"u", "b", "B", false, some 8, "T"⟩]
      "u" ["b", "a"]).2
    [some ⟨"b", "B", false, 0, "T"⟩, some ⟨"a", "A", false, 1, "T"⟩]
    rfl (by decide) 1 "a" (by decide)

/-! ## C4 -/

/-- Inserting at an in-range index is a permutation of consing. -/
theorem insertIdx_perm_cons {α : Type} (a : α) :
    ∀ (n : Nat) (l : List α), n ≤ l.length → (l.insertIdx n a).Perm (a :: l)
  | 0, l, _ => by rw [List.insertIdx_zero]
  | n + 1, [], h => by simp at h
  | n + 1, b :: l, h => by
    rw [List.insertIdx_succ_cons]
    exact ((insertIdx_perm_cons a n l (by simpa using h)).cons b).trans
      (List.Perm.swap a b l)

/-- Consing the removed element back onto an `eraseIdx` result permutes to
the original list. -/
theorem cons_eraseIdx_perm {α : Type} :
    ∀ (l : List α) (i : Nat) (x : α), l[i]? = some x → (x :: l.eraseIdx i).Perm l
  | [], i, x, hx => by simp at hx
  | b :: l, 0, x, hx => by
    simp only [List.getElem?_cons_zero, Option.some.injEq] at hx
    subst hx
    rfl
  | b :: l, i + 1, x, hx => by
    simp only [List.getElem?_cons_succ] at hx
    rw [List.eraseIdx_cons_succ]
    exact (List.Perm.swap b x (l.eraseIdx i)).trans ((cons_eraseIdx_perm l i x hx).cons b)

/-- A duplicate-free list all of whose elements equal `a` and which contains
`a` is exactly `[a]`. -/
theorem nodup_all_eq_singleton {α : Type} (l : List α) (a : α) (hnd : l.Nodup)
    (hmem : a ∈ l) (hall : ∀ x ∈ l, x = a) : l = [a] := by
  cases l with
  | nil => simp at hmem
  | cons b l =>
    have hb : b = a := hall b (by simp)
    subst hb
    cases l with
    | nil => rfl
    | cons c l =>
      have hc : c = b := hall c (by simp)
      rw [List.nodup_cons] at hnd
      exact absurd (by rw [hc]; exact List.mem_cons_self b l) hnd.1

/-- In a collection with duplicate-free ids, the items matching a found id
are exactly the found item. -/
theorem filter_find_eq_singleton (todos : List ClientTodo) (id : String) (todo : ClientTodo)
    (hnd : (todos.map ClientTodo.id).Nodup)
    (hfind : todos.find? (fun t => t.id == id) = some todo) :
    todos.filter (fun t => t.id == id) = [todo] := by
  have hmem : todo ∈ todos := List.mem_of_find?_eq_some hfind
  have hid : todo.id = id := by simpa using List.find?_some hfind
  apply nodup_all_eq_singleton
  · exact (List.Nodup.of_map _ hnd).filter _
  · rw [List.mem_filter]
    exact ⟨hmem, by simp [hid]⟩
  · intro t ht
    rw [List.mem_filter] at ht
    exact List.inj_on_of_nodup_map hnd ht.1 hmem (by rw [hid]; simpa using ht.2)

/-- C4 counterexample: with local list `[a, b]`, a failed delete of `a`
leaves `[b, a]` — the item is restored at the END, not at its original
position — and a failed reorder (move `a` after `b`) leaves `[b, a]`
because `persistOrder`'s catch only logs; in both cases the visible list
differs from the pre-mutation snapshot `[a, b]`. -/
theorem client_rollback_counterexample :
    RestHook.deleteTodo [⟨"a", "A", false⟩, ⟨"b", "B", false⟩] "a" true
      = [⟨"b", "B", false⟩, ⟨"a", "A", false⟩]
    ∧ RestHook.deleteTodo [⟨"a", "A", false⟩, ⟨"b", "B", false⟩] "a" true
      ≠ [⟨"a", "A", false⟩, ⟨"b", "B", false⟩]
    ∧ RestHook.reorderTodos [⟨"a", "A", false⟩, ⟨"b", "B", false⟩] 0 1 true
      = [⟨"b", "B", false⟩, ⟨"a", "A", false⟩]
    ∧ RestHook.reorderTodos [⟨"a", "A", false⟩, ⟨"b", "B", false⟩] 0 1 true
      ≠ [⟨"a", "A", false⟩, ⟨"b", "B", false⟩] :=
  ⟨by decide, by decide, by decide, by decide⟩

/-- C4 amended: on a failed durable write, toggle, edit and add restore the
pre-mutation snapshot exactly (given duplicate-free ids and a fresh temp
id); delete restores the snapshot only up to permutation — the deleted item
comes back at the end of the list — and reorder keeps the optimistic
reordering, which is also only a permutation of the snapshot. -/
theorem client_rollback_amended (todos : List ClientTodo)
    (id text tempId serverId : String) (oldI newI : Nat)
    (hnd : (todos.map ClientTodo.id).Nodup)
    (hfresh : ∀ t ∈ todos, t.id ≠ tempId)
    (hold : oldI < todos.length) :
    RestHook.toggleTodo todos id true = todos
    ∧ RestHook.editTodo todos id text true = todos
    ∧ RestHook.addTodo todos text tempId true serverId = todos
    ∧ (RestHook.deleteTodo todos id true).Perm todos
    ∧ (RestHook.reorderTodos todos oldI newI true).Perm todos := by
  refine ⟨?_, ?_, ?_, ?_, ?_⟩
  · -- toggle: the rollback map writes the captured completed flag back.
    rcases hfind : todos.find? (fun t => t.id == id) with _ | todo
    · simp [RestHook.toggleTodo, hfind]
    · have hmem := List.mem_of_find?_eq_some hfind
      have hidtodo : todo.id = id := by simpa using List.find?_some hfind
      simp only [RestHook.toggleTodo, hfind, if_true, List.map_map]
      conv_rhs => rw [← List.map_id todos]
      apply List.map_congr_left
      intro t ht
      by_cases hid : t.id = id
      · have hteq : t = todo :=
          List.inj_on_of_nodup_map hnd ht hmem (by rw [hid, hidtodo])
        subst hteq
        simp only [Function.comp_apply, hid, beq_self_eq_true, if_true]
        rw [← hid]
        rfl
      · simp [Function.comp, hid]
  · -- edit: the rollback map writes the captured text back.
    rcases hfind : todos.find? (fun t => t.id == id) with _ | todo
    · simp [RestHook.editTodo, hfind]
    · have hmem := List.mem_of_find?_eq_some hfind
      have hidtodo : todo.id = id := by simpa using List.find?_some hfind
      by_cases hblank : jsTrim text = ""
      · simp [RestHook.editTodo, hfind, hblank]
      · simp only [RestHook.editTodo, hfind, hblank, if_false, if_true, List.map_map]
        conv_rhs => rw [← List.map_id todos]
        apply List.map_congr_left
        intro t ht
        by_cases hid : t.id = id
        · have hteq : t = todo :=
            List.inj_on_of_nodup_map hnd ht hmem (by rw [hid, hidtodo])
          subst hteq
          simp only [Function.comp_apply, hid, beq_self_eq_true, if_true]
          rw [← hid]
          rfl
        · simp [Function.comp, hid]
  · -- add: filtering the fresh temp id back out restores the snapshot.
    by_cases hblank : jsTrim text = ""
    · simp [RestHook.addTodo, hblank]
    · simp only [RestHook.addTodo, hblank, if_false, if_true, List.filter_append]
      have h1 : todos.filter (fun t => !(t.id == tempId)) = todos := by
        apply List.filter_eq_self.mpr
        intro t ht
        simpa using hfresh t ht
      have h2 : ([(⟨tempId, jsTrim text, false⟩ : ClientTodo)].filter
          fun t => !(t.id == tempId)) = [] := by simp
      rw [h1, h2, List.append_nil]
  · -- delete: membership is restored, the position is not.
    rcases hfind : todos.find? (fun t => t.id == id) with _ | todo
    · have hnone : ∀ t ∈ todos, ¬(t.id = id) := by
        intro t ht
        have := List.find?_eq_none.mp hfind t ht
        simpa using this
      simp only [RestHook.deleteTodo, hfind, if_true]
      have : todos.filter (fun t => !(t.id == id)) = todos := by
        apply List.filter_eq_self.mpr
        intro t ht
        simpa using hnone t ht
      rw [this]
    · simp only [RestHook.deleteTodo, hfind, if_true]
      have h1 : todos.filter (fun t => t.id == id) = [todo] :=
        filter_find_eq_singleton todos id todo hnd hfind
      rw [← h1]
      have hperm := List.filter_append_perm (fun t => !(t.id == id)) todos
      simpa using hperm
  · -- reorder: persistOrder swallows the failure; only a permutation holds.
    unfold RestHook.reorderTodos RestHook.spliceMove
    have hsome : todos[oldI]? = some (todos.get ⟨oldI, hold⟩) := List.getElem?_eq_getElem hold
    rw [hsome]
    have hlen : min newI (todos.eraseIdx oldI).length ≤ (todos.eraseIdx oldI).length :=
      Nat.min_le_right _ _
    exact (insertIdx_perm_cons _ _ _ hlen).trans
      (cons_eraseIdx_perm todos oldI _ hsome)

/-- Witness for `client_rollback_amended` on a concrete two-item list. -/
theorem client_rollback_amended_witness :
    RestHook.toggleTodo [⟨"a", "A", false⟩, ⟨"b", "B", false⟩] "a" true
      = [⟨"a", "A", false⟩, ⟨"b", "B", false⟩]
    ∧ RestHook.editTodo [⟨"a", "A", false⟩, ⟨"b", "B", false⟩] "a" " X " true
      = [⟨"a", "A", false⟩, ⟨"b", "B", false⟩]
    ∧ RestHook.addTodo [⟨"a", "A", false⟩, ⟨"b", "B", false⟩] " X " "t" true "s"
      = [⟨"a", "A", false⟩, ⟨"b", "B", false⟩]
    ∧ (RestHook.deleteTodo [⟨"a", "A", false⟩, ⟨"b", "B", false⟩] "a" true).Perm
        [⟨"a", "A", false⟩, ⟨"b", "B", false⟩]
    ∧ (RestHook.reorderTodos [⟨"a", "A", false⟩, ⟨"b", "B", false⟩] 0 1 true).Perm
        [⟨"a", "A", false⟩, ⟨"b", "B", false⟩] :=
  client_rollback_amended [⟨"a", "A", false⟩, ⟨"b", "B", false⟩]
    "a" " X " "t" "s" 0 1 (by decide) (by decide) (by decide)

/-! ## C1 -/

/-- C1: a reorder request whose id sequence is a duplicate-free enumeration
of exactly the caller's items (the only shape for which the claim's second
conclusion can hold, per the spec's validity notion) succeeds; afterwards
each listed item's `order` equals its zero-based position in the sequence,
and listing the owner's items sorted by `order` yields exactly the supplied
sequence.  The `Nodup` on stored keys is the DynamoDB key-schema
invariant. -/
theorem reorderTodos_full_sequence (store : List TodoItem) (u : String) (ids : List String)
    (hkeys : ((store.filter fun t => t.userId == u).map TodoItem.todoId).Nodup)
    (hnd : ids.Nodup)
    (hcov : ∀ id, id ∈ ids ↔ ∃ t ∈ store, t.userId = u ∧ t.todoId = id)
    (hlen : ids.length ≤ 1000) (hne : ids ≠ []) :
    (TodoApi.reorderTodos store u ids).res = .ok ()
    ∧ (TodoApi.listTodos (TodoApi.reorderTodos store u ids).store u).map TodoItem.todoId = ids
    ∧ ∀ (k : Nat)
        (hk : k < (TodoApi.listTodos (TodoApi.reorderTodos store u ids).store u).length),
        ((TodoApi.listTodos (TodoApi.reorderTodos store u ids).store u).get ⟨k, hk⟩).order
          = some (k : Int) := by
  have hlen0 : ¬(ids.length = 0 ∨ 1000 < ids.length) := by
    rintro (h | h)
    · exact hne (List.length_eq_zero.mp h)
    · omega
  have hvalid : (ids.all fun id =>
      ((TodoApi.listTodos store u).map TodoItem.todoId).contains id) = true := by
    rw [List.all_eq_true]
    intro id hid
    rcases (hcov id).mp hid with ⟨t, ht, htu, htid⟩
    rw [List.elem_iff, List.mem_map]
    refine ⟨t, ?_, htid⟩
    rw [TodoApi.listTodos, List.mem_insertionSort, List.mem_filter]
    exact ⟨ht, by simp [htu]⟩
  have hred : TodoApi.reorderTodos store u ids
      = ⟨.ok (), writeOrders store u ids 0, .query u :: writeOps u ids 0⟩ := by
    unfold TodoApi.reorderTodos
    rw [if_neg hlen0]
    dsimp only
    rw [if_pos hvalid]
  rw [hred]
  simp only [TodoApi.listTodos]
  rw [writeOrders_eq_map]
  have hA' : (store.map (applyOrders u ids 0)).filter (fun t => t.userId == u)
      = (store.filter fun t => t.userId == u).map (applyOrders u ids 0) := by
    rw [List.filter_map]
    congr 1
    apply List.filter_congr
    intro t _
    simp only [Function.comp_apply, (applyOrders_fields u ids 0 t).1]
  rw [hA']
  set A := store.filter fun t => t.userId == u with hA
  set B := List.insertionSort byOrder (A.map (applyOrders u ids 0)) with hB
  have hmemA : ∀ s, s ∈ A.map TodoItem.todoId ↔ s ∈ ids := by
    intro s
    rw [List.mem_map]
    constructor
    · rintro ⟨t, ht, rfl⟩
      rw [hA, List.mem_filter] at ht
      exact (hcov t.todoId).mpr ⟨t, ht.1, by simpa using ht.2, rfl⟩
    · intro hs
      rcases (hcov s).mp hs with ⟨t, ht, htu, htid⟩
      exact ⟨t, by rw [hA, List.mem_filter]; exact ⟨ht, by simp [htu]⟩, htid⟩
  have hperm_ids : (A.map TodoItem.todoId).Perm ids :=
    (List.perm_ext_iff_of_nodup hkeys hnd).mpr hmemA
  have key : ∀ t ∈ A, (applyOrders u ids 0 t).order = some ((ids.indexOf t.todoId : Nat) : Int)
      ∧ (applyOrders u ids 0 t).todoId = t.todoId := by
    intro t ht
    have htid : t.todoId ∈ ids := (hmemA t.todoId).mp (List.mem_map_of_mem _ ht)
    have htu : t.userId = u := by
      rw [hA, List.mem_filter] at ht
      simpa using ht.2
    have hlt : ids.indexOf t.todoId < ids.length := List.indexOf_lt_length.mpr htid
    have hget : ids[ids.indexOf t.todoId]? = some t.todoId := by
      rw [List.getElem?_eq_getElem hlt, List.getElem_indexOf hlt]
    have hassign := applyOrders_assign u ids 0 t hnd htu _ hget
    exact ⟨by rw [hassign]; simp, (applyOrders_fields u ids 0 t).2.1⟩
  have hordA : (A.map (applyOrders u ids 0)).map TodoItem.order
      = (A.map TodoItem.todoId).map (fun s => some ((ids.indexOf s : Nat) : Int)) := by
    rw [List.map_map, List.map_map]
    apply List.map_congr_left
    intro t ht
    simp only [Function.comp_apply]
    rw [(key t ht).1]
  have hids_map : ids.map (fun s => some ((ids.indexOf s : Nat) : Int))
      = (List.range ids.length).map (fun k => some ((k : Nat) : Int)) := by
    apply List.ext_getElem
    · simp
    · intro k h1 h2
      have hidx := List.indexOf_getElem hnd k (by simpa using h1)
      simp [hidx]
  have hpermB : B.Perm (A.map (applyOrders u ids 0)) := List.perm_insertionSort byOrder _
  have hpermR : (B.map TodoItem.order).Perm
      ((List.range ids.length).map (fun k => some ((k : Nat) : Int))) := by
    have p1 : (B.map TodoItem.order).Perm ((A.map (applyOrders u ids 0)).map TodoItem.order) :=
      hpermB.map _
    rw [hordA] at p1
    have p2 := hperm_ids.map (fun s => some ((ids.indexOf s : Nat) : Int))
    rw [hids_map] at p2
    exact p1.trans p2
  have hsortB : List.Pairwise keyLe (B.map TodoItem.order) :=
    List.Pairwise.map TodoItem.order (fun a b h => h) (List.sorted_insertionSort byOrder _)
  have hsortR : List.Pairwise keyLe
      ((List.range ids.length).map (fun k => some ((k : Nat) : Int))) := by
    rw [List.pairwise_iff_getElem]
    intro i j h1 h2 hij
    simp only [List.getElem_map, List.getElem_range]
    show orderLe (some _) (some _) = true
    simp only [orderLe, decide_eq_true_eq]
    omega
  have hBR : B.map TodoItem.order
      = (List.range ids.length).map (fun k => some ((k : Nat) : Int)) :=
    List.eq_of_perm_of_sorted hpermR hsortB hsortR
  have hlenB : B.length = ids.length := by
    have := congrArg List.length hBR
    simpa using this
  have horder : ∀ (k : Nat) (hk : k < B.length),
      (B.get ⟨k, hk⟩).order = some ((k : Nat) : Int) := by
    intro k hk
    have hkR : k < ids.length := hlenB ▸ hk
    have e := congrArg (fun l => l[k]?) hBR
    simp only [List.getElem?_map, List.getElem?_eq_getElem hk,
      List.getElem?_eq_getElem (show k < (List.range ids.length).length by simpa using hkR),
      Option.map_some', List.getElem_range] at e
    simpa using e
  refine ⟨trivial, ?_, horder⟩
  apply List.ext_getElem
  · simp [hlenB]
  · intro k h1 h2
    have hkB : k < B.length := by simpa using h1
    have htB : B.get ⟨k, hkB⟩ ∈ A.map (applyOrders u ids 0) :=
      hpermB.mem_iff.mp (List.get_mem B k hkB)
    obtain ⟨t0, ht0, hgt⟩ := List.mem_map.mp htB
    have hkey := key t0 ht0
    have ho2 : some ((ids.indexOf t0.todoId : Nat) : Int) = some ((k : Nat) : Int) := by
      rw [← hkey.1, hgt, horder k hkB]
    have hidx : ids.indexOf t0.todoId = k := by
      have := Option.some.inj ho2
      exact_mod_cast this
    have htid : t0.todoId ∈ ids := (hmemA t0.todoId).mp (List.mem_map_of_mem _ ht0)
    have hlt : ids.indexOf t0.todoId < ids.length := List.indexOf_lt_length.mpr htid
    have hq : ids[ids.indexOf t0.todoId]? = some t0.todoId := by
      rw [List.getElem?_eq_getElem hlt, List.getElem_indexOf hlt]
    rw [hidx, List.getElem?_eq_getElem h2] at hq
    have hBk : (B.get ⟨k, hkB⟩).todoId = t0.todoId := by
      rw [← hgt, hkey.2]
    simp only [List.getElem_map]
    rw [show B[k] = B.get ⟨k, hkB⟩ from rfl, hBk]
    exact (Option.some.inj hq).symm

/-- Witness for `reorderTodos_full_sequence`: reordering a two-item
collection to `["a", "b"]` succeeds and the listing follows the sequence. -/
theorem reorderTodos_full_sequence_witness :
    (TodoApi.reorderTodos
        [⟨"u", "a", "A", false, some 7, "T"⟩, ⟨"u", "b", "B", false, some 3, "T"⟩]
        "u" ["a", "b"]).res = .ok ()
    ∧ (TodoApi.listTodos
        (TodoApi.reorderTodos
          [⟨"u", "a", "A", false, some 7, "T"⟩, ⟨"u", "b", "B", false, some 3, "T"⟩]
          "u" ["a", "b"]).store "u").map TodoItem.todoId = ["a", "b"] := by
  have h := reorderTodos_full_sequence
    [⟨"u", "a", "A", false, some 7, "T"⟩, ⟨"u", "b", "B", false, some 3, "T"⟩]
    "u" ["a", "b"] (by decide) (by decide)
    (by
      intro id
      constructor
      · intro hid
        rcases List.mem_cons.mp hid with rfl | hid
        · exact ⟨⟨"u", "a", "A", false, some 7, "T"⟩, by simp⟩
        · rcases List.mem_cons.mp hid with rfl | hid
          · exact ⟨⟨"u", "b", "B", false, some 3, "T"⟩, by simp⟩
          · simp at hid
      · rintro ⟨t, ht, htu, rfl⟩
        rcases List.mem_cons.mp ht with rfl | ht
        · simp
        · rcases List.mem_cons.mp ht with rfl | ht
          · simp
          · simp at ht)
    (by decide) (by decide)
  exact ⟨h.1, h.2.1⟩
